import Mathlib

/-!
Shallow embedding of the user store and authentication service of the
gin-simple-app repository (Go). Pure translation conventions:

* time.Time is modelled in whole seconds as Nat; time.Now() becomes an
  explicit now : Nat argument of each operation.
* nullable / pointer fields become Option; the zero gorm.DeletedAt
  (DeletedAt.Time.IsZero()) becomes deletedAt = none.
* fallible Go methods returning (T, error) become Except values.
* bcrypt and HMAC-SHA256 are external library calls; they are modelled
  symbolically (a hash or mac is a constructor application remembering its
  inputs, and verification is structural equality), which captures exactly
  the correctness contract the service code relies on.
-/

/-- User record, from internal/models/user.go (the authentication-enabled
model). Field order and optionality follow the Go struct. -/
structure User where
  id : Nat
  createdAt : Nat
  updatedAt : Nat
  deletedAt : Option Nat
  name : String
  email : String
  password : String
  phone : Option String
  address : Option String
  isActive : Bool
  isEmailVerified : Bool
  emailVerificationToken : Option String
  passwordResetToken : Option String
  passwordResetExpiry : Option Nat
  lastLoginAt : Option Nat
deriving Repr, DecidableEq

/-- Errors produced by the in-memory repository: gorm.ErrRecordNotFound and
errors.New of the duplicate-email message. -/
inductive RepoError where
  | recordNotFound
  | emailAlreadyExists
deriving Repr, DecidableEq

/-- The message carried by each repository error value (gorm's
ErrRecordNotFound prints as the first string). -/
def RepoError.message : RepoError → String
  | .recordNotFound => "record not found"
  | .emailAlreadyExists => "email already exists"

/-- DeletedAt.Time.IsZero() in Go: the record is not soft-deleted. -/
def User.notDeleted (u : User) : Bool := u.deletedAt.isNone

/-- The loop guard user.ID == id && user.DeletedAt.Time.IsZero() used by
GetByID, Update and Delete. -/
def matchesID (id : Nat) (x : User) : Bool := x.id == id && x.notDeleted

/-- The loop guard user.Email == email && user.DeletedAt.Time.IsZero() used by
GetByEmail and the duplicate check in Create. -/
def hasLiveEmail (email : String) (x : User) : Bool := x.email == email && x.notDeleted

/-- The duplicate-email check of Update: another record, different id, same
email, not deleted. -/
def updateConflict (u : User) (o : User) : Bool :=
  o.email == u.email && o.id != u.id && o.notDeleted

/-- In-memory user store, from internal/repository/memory_user_repository.go:
a slice of users plus the next id to assign. The sync.RWMutex guards the Go
struct; here every operation is a pure function on the whole state, which is
the sequential semantics the lock enforces. -/
structure InMemoryUserRepository where
  users : List User
  nextID : Nat
deriving Repr, DecidableEq

/-- GetAll: every non-deleted user, in insertion order. -/
def InMemoryUserRepository.GetAll (s : InMemoryUserRepository) : List User :=
  s.users.filter User.notDeleted

/-- GetByID: first non-deleted user with this id, else gorm.ErrRecordNotFound. -/
def InMemoryUserRepository.GetByID (s : InMemoryUserRepository) (id : Nat) :
    Except RepoError User :=
  match s.users.find? (matchesID id) with
  | some u => .ok u
  | none => .error .recordNotFound

/-- GetByEmail: first non-deleted user with this email, else
gorm.ErrRecordNotFound. -/
def InMemoryUserRepository.GetByEmail (s : InMemoryUserRepository) (email : String) :
    Except RepoError User :=
  match s.users.find? (hasLiveEmail email) with
  | some u => .ok u
  | none => .error .recordNotFound

/-- Modelled from the spec: the in-memory body of GetByPasswordResetToken is
not under src (only the UserRepository interface, the GORM implementation and
the repository tests are). Per the spec, GetByResetToken is an exact-match
lookup among non-deleted records that does not itself check expiry, returning
NotFound when absent. -/
def InMemoryUserRepository.GetByPasswordResetToken (s : InMemoryUserRepository)
    (token : String) : Except RepoError User :=
  match s.users.find? (fun x => x.passwordResetToken == some token && x.notDeleted) with
  | some u => .ok u
  | none => .error .recordNotFound

/-- Create: reject a duplicate email among non-deleted records, otherwise
assign id and timestamps and append. Returns the stored record together with
the new state (Go mutates the argument in place and the receiver). An error
return leaves the caller's state untouched, as the Go method returns before
any mutation. -/
def InMemoryUserRepository.Create (s : InMemoryUserRepository) (u : User) (now : Nat) :
    Except RepoError (InMemoryUserRepository × User) :=
  if s.users.any (hasLiveEmail u.email) then
    .error .emailAlreadyExists
  else
    let u' : User := { u with id := s.nextID, createdAt := now, updatedAt := now }
    .ok ({ users := s.users ++ [u'], nextID := s.nextID + 1 }, u')

/-- The loop body of Update: walk the slice to the first non-deleted record
with the argument's id; there, check every record of the original slice for a
duplicate email and on success store the argument with updatedAt set to now
and createdAt preserved from the existing record. -/
def updateLoop (all : List User) (u : User) (now : Nat) :
    List User → Except RepoError (List User)
  | [] => .error .recordNotFound
  | e :: rest =>
    if matchesID u.id e then
      if all.any (updateConflict u) then
        .error .emailAlreadyExists
      else
        .ok ({ u with updatedAt := now, createdAt := e.createdAt } :: rest)
    else
      match updateLoop all u now rest with
      | .ok rest' => .ok (e :: rest')
      | .error err => .error err

/-- Update, from memory_user_repository.go. -/
def InMemoryUserRepository.Update (s : InMemoryUserRepository) (u : User) (now : Nat) :
    Except RepoError InMemoryUserRepository :=
  match updateLoop s.users u now s.users with
  | .ok users' => .ok { s with users := users' }
  | .error err => .error err

/-- The loop body of Delete: walk to the first non-deleted record with this id
and set its DeletedAt to now. -/
def deleteLoop (id : Nat) (now : Nat) : List User → Except RepoError (List User)
  | [] => .error .recordNotFound
  | e :: rest =>
    if matchesID id e then
      .ok ({ e with deletedAt := some now } :: rest)
    else
      match deleteLoop id now rest with
      | .ok rest' => .ok (e :: rest')
      | .error err => .error err

/-- Delete: soft delete, from memory_user_repository.go. -/
def InMemoryUserRepository.Delete (s : InMemoryUserRepository) (id : Nat) (now : Nat) :
    Except RepoError InMemoryUserRepository :=
  match deleteLoop id now s.users with
  | .ok users' => .ok { s with users := users' }
  | .error err => .error err

/-- Count: number of non-deleted users. -/
def InMemoryUserRepository.Count (s : InMemoryUserRepository) : Nat :=
  (s.users.filter User.notDeleted).length

/-- One sample record of NewInMemoryUserRepository; fields the Go literal
omits take Go zero values (empty password, inactive, no tokens). -/
def sampleUser (id now : Nat) (name email : String) (phone address : Option String) : User :=
  { id := id, createdAt := now, updatedAt := now, deletedAt := none, name := name,
    email := email, password := "", phone := phone, address := address, isActive := false,
    isEmailVerified := false, emailVerificationToken := none, passwordResetToken := none,
    passwordResetExpiry := none, lastLoginAt := none }

/-- NewInMemoryUserRepository: the initial store with three sample users and
nextID 4. -/
def NewInMemoryUserRepository (now : Nat) : InMemoryUserRepository :=
  { users :=
      [ sampleUser 1 now "John Doe" "john@example.com" (some "+1-555-0101")
          (some "123 Main St, New York, NY 10001"),
        sampleUser 2 now "Jane Smith" "jane@example.com" (some "+1-555-0102")
          (some "456 Oak Ave, Los Angeles, CA 90210"),
        sampleUser 3 now "Bob Johnson" "bob@example.com" (some "+1-555-0103") none ],
    nextID := 4 }

/-! Symbolic model of the external cryptographic libraries. -/

/-- bcrypt.GenerateFromPassword, symbolically: the produced hash string
determines the password it was generated from. -/
def bcryptGenerateFromPassword (password : String) : String :=
  "bcrypt$" ++ password

/-- bcrypt.CompareHashAndPassword succeeds exactly when the hash was generated
from the candidate password. -/
def bcryptCompareHashAndPassword (hash password : String) : Bool :=
  hash == bcryptGenerateFromPassword password

/-- Decoded JWT claim set built by generateJWTToken (user_id, email, iat, exp,
sub). -/
structure JWTClaims where
  user_id : Nat
  email : String
  iat : Nat
  exp : Nat
  sub : String
deriving Repr, DecidableEq

/-- Signing algorithm recorded in the token header. -/
inductive SigningMethod where
  | hs256
  | other (alg : String)
deriving Repr, DecidableEq

/-- Symbolic HMAC-SHA256 tag over the encoded claims: two tags are equal
exactly when secret and signed payload agree (collision-freeness of the mac). -/
structure Mac where
  secret : String
  payload : JWTClaims
deriving Repr, DecidableEq

/-- Computing the mac of a claim set under a secret. -/
def hmacSign (secret : String) (payload : JWTClaims) : Mac :=
  { secret := secret, payload := payload }

/-- A serialized JWT: header (alg), payload and signature. -/
structure Token where
  method : SigningMethod
  claims : JWTClaims
  mac : Mac
deriving Repr, DecidableEq

/-- generateJWTToken, from the auth service: claims are user_id, email,
iat = now, exp = now + configured expiry, sub = stringified user id; the token
is signed with HS256 under the service secret. Returns the token together
with ExpiresIn (the expiry duration in seconds). -/
def generateJWTToken (jwtSecret : String) (jwtExpiry : Nat) (userID : Nat)
    (email : String) (now : Nat) : Token × Nat :=
  let claims : JWTClaims :=
    { user_id := userID, email := email, iat := now, exp := now + jwtExpiry,
      sub := toString userID }
  ({ method := .hs256, claims := claims, mac := hmacSign jwtSecret claims }, jwtExpiry)

/-- ValidateToken, from the auth service: reject a non-HMAC signing method,
reject a bad signature, reject an expired token (the jwt library accepts
exactly while now is before exp), otherwise return the decoded claims. -/
def ValidateToken (jwtSecret : String) (tok : Token) (now : Nat) :
    Except String JWTClaims :=
  match tok.method with
  | .other alg => .error ("unexpected signing method: " ++ alg)
  | .hs256 =>
    if tok.mac = hmacSign jwtSecret tok.claims then
      if now < tok.claims.exp then
        .ok tok.claims
      else
        .error "token has invalid claims: token is expired"
    else
      .error "token signature is invalid"

/-! The authentication service (AuthServiceImpl). Service errors are the
errors.New message strings of the Go code. Randomness (uuid.New) is passed in
as an explicit argument. -/

/-- Login request body. -/
structure LoginRequest where
  email : String
  password : String
deriving Repr, DecidableEq

/-- Forgot-password request body. -/
structure ForgotPasswordRequest where
  email : String
deriving Repr, DecidableEq

/-- Reset-password request body. -/
structure ResetPasswordRequest where
  token : String
  newPassword : String
  confirmPassword : String
deriving Repr, DecidableEq

/-- Change-password request body. -/
structure ChangePasswordRequest where
  currentPassword : String
  newPassword : String
  confirmPassword : String
deriving Repr, DecidableEq

/-- Login response payload. -/
structure LoginResponse where
  user : User
  accessToken : Token
  tokenType : String
  expiresIn : Nat
deriving Repr, DecidableEq

/-- Login, from the auth service: absent email and failed password
verification yield the same error string; an inactive account is rejected
before the password is checked; on success a token is issued, last-login is
set and persisted (the result of the persisting Update is discarded, as in
the Go code). -/
def Login (jwtSecret : String) (jwtExpiry : Nat) (s : InMemoryUserRepository)
    (req : LoginRequest) (now : Nat) :
    Except String (LoginResponse × InMemoryUserRepository) :=
  match s.GetByEmail req.email with
  | .error .recordNotFound => .error "invalid email or password"
  | .error e => .error e.message
  | .ok user =>
    if user.isActive = false then
      .error "account is deactivated"
    else if bcryptCompareHashAndPassword user.password req.password = false then
      .error "invalid email or password"
    else
      let tokenPair := generateJWTToken jwtSecret jwtExpiry user.id user.email now
      let user' : User := { user with lastLoginAt := some now }
      let s' : InMemoryUserRepository :=
        match s.Update user' now with
        | .ok s2 => s2
        | .error _ => s
      .ok ({ user := user', accessToken := tokenPair.1, tokenType := "Bearer",
             expiresIn := tokenPair.2 }, s')

/-- ForgotPassword, from the auth service: an unknown email is reported as
success with no state change; otherwise the reset token and an expiry of
now plus one hour (3600 seconds) are stored. The fresh uuid is the resetToken
argument. -/
def ForgotPassword (s : InMemoryUserRepository) (req : ForgotPasswordRequest)
    (resetToken : String) (now : Nat) : Except String InMemoryUserRepository :=
  match s.GetByEmail req.email with
  | .error .recordNotFound => .ok s
  | .error e => .error e.message
  | .ok user =>
    let user' : User :=
      { user with passwordResetToken := some resetToken,
                  passwordResetExpiry := some (now + 3600) }
    match s.Update user' now with
    | .ok s' => .ok s'
    | .error e => .error e.message

/-- ResetPassword, from the auth service: confirm the two passwords match,
look the user up by reset token, reject a missing token and a null or passed
expiry with one identical error, then store the new hash and clear token and
expiry. -/
def ResetPassword (s : InMemoryUserRepository) (req : ResetPasswordRequest)
    (now : Nat) : Except String InMemoryUserRepository :=
  if req.newPassword != req.confirmPassword then
    .error "passwords do not match"
  else
    match s.GetByPasswordResetToken req.token with
    | .error _ => .error "invalid or expired reset token"
    | .ok user =>
      match user.passwordResetExpiry with
      | none => .error "invalid or expired reset token"
      | some expiry =>
        if expiry < now then
          .error "invalid or expired reset token"
        else
          let user' : User :=
            { user with password := bcryptGenerateFromPassword req.newPassword,
                        passwordResetToken := none, passwordResetExpiry := none }
          match s.Update user' now with
          | .ok s' => .ok s'
          | .error e => .error e.message

/-- ChangePassword, from the auth service: confirm the two new passwords
match, fetch the user by id, verify the current password against the stored
hash, then store the new hash. -/
def ChangePassword (s : InMemoryUserRepository) (userID : Nat)
    (req : ChangePasswordRequest) (now : Nat) : Except String InMemoryUserRepository :=
  if req.newPassword != req.confirmPassword then
    .error "passwords do not match"
  else
    match s.GetByID userID with
    | .error _ => .error "user not found"
    | .ok user =>
      if bcryptCompareHashAndPassword user.password req.currentPassword = false then
        .error "current password is incorrect"
      else
        let user' : User := { user with password := bcryptGenerateFromPassword req.newPassword }
        match s.Update user' now with
        | .ok s' => .ok s'
        | .error e => .error e.message

/-- GetUserByID of the user service: translate the store's not-found error
into the service error message. -/
def GetUserByID (s : InMemoryUserRepository) (id : Nat) : Except String User :=
  match s.GetByID id with
  | .error .recordNotFound => .error "user not found"
  | .error e => .error e.message
  | .ok u => .ok u

/-- Outcome of a middleware run: either the request proceeds to the handler
with identity stored in the request context, or it is aborted with a status
and message. -/
inductive MiddlewareResult where
  | proceed (userID : Nat) (email : String)
  | reject (status : Nat) (message : String)
deriving Repr, DecidableEq

/-- AuthMiddleware, from internal/handlers/auth_handler.go, after the Bearer
header has been parsed into a token: validate the token and on success store
the numeric user_id claim (and email) in the context and continue. It never
touches the user store. -/
def AuthMiddleware (jwtSecret : String) (tok : Token) (now : Nat) : MiddlewareResult :=
  match ValidateToken jwtSecret tok now with
  | .error e => .reject 401 e
  | .ok claims => .proceed claims.user_id claims.email

/-- EnhancedAuthMiddleware, from internal/handlers/auth_handler.go: validate
the token, then re-fetch the user through the user service and reject a
missing account or a deactivated one. -/
def EnhancedAuthMiddleware (jwtSecret : String) (s : InMemoryUserRepository)
    (tok : Token) (now : Nat) : MiddlewareResult :=
  match ValidateToken jwtSecret tok now with
  | .error e => .reject 401 e
  | .ok claims =>
    match GetUserByID s claims.user_id with
    | .error _ => .reject 401 "User not found"
    | .ok user =>
      if user.isActive = false then
        .reject 401 "Account is deactivated"
      else
        .proceed claims.user_id user.email

/-! Operation sequences over the store, for the reachability statement. -/

/-- One store-mutating call. -/
inductive Op where
  | createOp (u : User) (now : Nat)
  | updateOp (u : User) (now : Nat)
  | deleteOp (id : Nat) (now : Nat)
deriving Repr

/-- Run one operation; a failed call leaves the store as it was (the Go
methods return their error before mutating). -/
def applyOp (s : InMemoryUserRepository) : Op → InMemoryUserRepository
  | .createOp u now =>
    match s.Create u now with
    | .ok p => p.1
    | .error _ => s
  | .updateOp u now =>
    match s.Update u now with
    | .ok s' => s'
    | .error _ => s
  | .deleteOp id now =>
    match s.Delete id now with
    | .ok s' => s'
    | .error _ => s

/-- Run a sequence of operations. -/
def run (s : InMemoryUserRepository) (ops : List Op) : InMemoryUserRepository :=
  ops.foldl applyOp s

/-! Store invariants. -/

/-- All record ids are pairwise distinct (deleted records included) and below
nextID. -/
def idsOk (s : InMemoryUserRepository) : Prop :=
  (s.users.map User.id).Nodup ∧ ∀ u ∈ s.users, u.id < s.nextID

/-- The emails of the non-deleted records are pairwise distinct. -/
def emailsUnique (s : InMemoryUserRepository) : Prop :=
  ((s.users.filter User.notDeleted).map User.email).Nodup

/-- The store invariant: distinct bounded ids and unique live emails. -/
def StoreInv (s : InMemoryUserRepository) : Prop :=
  idsOk s ∧ emailsUnique s

instance (s : InMemoryUserRepository) : Decidable (idsOk s) := by
  unfold idsOk; infer_instance

instance (s : InMemoryUserRepository) : Decidable (emailsUnique s) := by
  unfold emailsUnique; infer_instance

instance (s : InMemoryUserRepository) : Decidable (StoreInv s) := by
  unfold StoreInv; infer_instance

/-! Helper lemmas about the predicates and the loops. -/

theorem matchesID_iff {id : Nat} {x : User} :
    matchesID id x = true ↔ x.id = id ∧ x.notDeleted = true := by
  simp [matchesID]

theorem hasLiveEmail_iff {email : String} {x : User} :
    hasLiveEmail email x = true ↔ x.email = email ∧ x.notDeleted = true := by
  simp [hasLiveEmail]

theorem updateConflict_iff {u o : User} :
    updateConflict u o = true ↔ o.email = u.email ∧ o.id ≠ u.id ∧ o.notDeleted = true := by
  simp [updateConflict, and_assoc]

theorem find?_append_of_forall_false {p : User → Bool} {l₁ : List User} (l₂ : List User)
    (h : ∀ x ∈ l₁, p x = false) : (l₁ ++ l₂).find? p = l₂.find? p := by
  induction l₁ with
  | nil => rfl
  | cons a l ih =>
    have ha : p a = false := h a (List.mem_cons_self a l)
    rw [List.cons_append, List.find?_cons_of_neg _ (by simp [ha])]
    exact ih fun x hx => h x (List.mem_cons_of_mem a hx)

theorem GetByID_ok_iff {s : InMemoryUserRepository} {id : Nat} {u : User} :
    s.GetByID id = .ok u ↔ s.users.find? (matchesID id) = some u := by
  unfold InMemoryUserRepository.GetByID
  cases h : s.users.find? (matchesID id) <;> simp

theorem GetByID_error_iff {s : InMemoryUserRepository} {id : Nat} {e : RepoError} :
    s.GetByID id = .error e ↔ e = .recordNotFound ∧ ∀ x ∈ s.users, matchesID id x = false := by
  unfold InMemoryUserRepository.GetByID
  cases h : s.users.find? (matchesID id) with
  | none =>
    rw [List.find?_eq_none] at h
    simp only [Except.error.injEq]
    constructor
    · rintro rfl
      exact ⟨rfl, fun x hx => by simpa using h x hx⟩
    · rintro ⟨rfl, _⟩; rfl
  | some u =>
    simp only []
    constructor
    · intro hc; cases hc
    · rintro ⟨rfl, hall⟩
      have := List.find?_some h
      have hmem := List.mem_of_find?_eq_some h
      rw [hall u hmem] at this
      cases this

theorem GetByEmail_ok_iff {s : InMemoryUserRepository} {email : String} {u : User} :
    s.GetByEmail email = .ok u ↔ s.users.find? (hasLiveEmail email) = some u := by
  unfold InMemoryUserRepository.GetByEmail
  cases h : s.users.find? (hasLiveEmail email) <;> simp

theorem GetByEmail_error_eq {s : InMemoryUserRepository} {email : String} {e : RepoError}
    (h : s.GetByEmail email = .error e) : e = .recordNotFound := by
  unfold InMemoryUserRepository.GetByEmail at h
  cases hf : s.users.find? (hasLiveEmail email) <;> rw [hf] at h
  · cases h; rfl
  · cases h

theorem GetByPasswordResetToken_ok {s : InMemoryUserRepository} {token : String} {u : User}
    (h : s.GetByPasswordResetToken token = .ok u) :
    u ∈ s.users ∧ u.passwordResetToken = some token ∧ u.notDeleted = true := by
  unfold InMemoryUserRepository.GetByPasswordResetToken at h
  cases hf : s.users.find? (fun x => x.passwordResetToken == some token && x.notDeleted) <;>
    rw [hf] at h
  · cases h
  · cases h
    have hp := List.find?_some hf
    have hmem := List.mem_of_find?_eq_some hf
    simp only [Bool.and_eq_true, beq_iff_eq] at hp
    exact ⟨hmem, hp.1, hp.2⟩

theorem updateLoop_notFound {u : User} {now : Nat} (all : List User) :
    ∀ l : List User, (∀ x ∈ l, matchesID u.id x = false) →
      updateLoop all u now l = .error .recordNotFound := by
  intro l
  induction l with
  | nil => intro _; rfl
  | cons e rest ih =>
    intro h
    have he : matchesID u.id e = false := h e (List.mem_cons_self e rest)
    have hrest := ih fun x hx => h x (List.mem_cons_of_mem e hx)
    simp [updateLoop, he, hrest]

theorem updateLoop_conflict {u : User} {now : Nat} {all : List User}
    (hconf : all.any (updateConflict u) = true) :
    ∀ l : List User, (∃ x ∈ l, matchesID u.id x = true) →
      updateLoop all u now l = .error .emailAlreadyExists := by
  intro l
  induction l with
  | nil => rintro ⟨x, hx, _⟩; cases hx
  | cons e rest ih =>
    rintro ⟨x, hx, hmx⟩
    by_cases he : matchesID u.id e = true
    · simp [updateLoop, he, hconf]
    · have he' : matchesID u.id e = false := by
        cases hb : matchesID u.id e
        · rfl
        · exact absurd hb he
      rcases List.mem_cons.mp hx with rfl | hx'
      · exact absurd hmx he
      · have := ih ⟨x, hx', hmx⟩
        simp [updateLoop, he', this]

theorem updateLoop_ok_decomp {u : User} {now : Nat} {all : List User} :
    ∀ {l l' : List User}, updateLoop all u now l = .ok l' →
      all.any (updateConflict u) = false ∧
      ∃ pre e rest, l = pre ++ e :: rest ∧
        l' = pre ++ { u with updatedAt := now, createdAt := e.createdAt } :: rest ∧
        matchesID u.id e = true ∧
        ∀ x ∈ pre, matchesID u.id x = false := by
  intro l
  induction l with
  | nil => intro l' h; cases h
  | cons e rest ih =>
    intro l' h
    by_cases he : matchesID u.id e = true
    · rw [updateLoop, if_pos he] at h
      cases hconf : all.any (updateConflict u) with
      | true => rw [if_pos hconf] at h; cases h
      | false =>
        rw [if_neg (by simp [hconf])] at h
        cases h
        exact ⟨rfl, [], e, rest, rfl, rfl, he, by intro x hx; cases hx⟩
    · have he' : matchesID u.id e = false := by
        cases hb : matchesID u.id e
        · rfl
        · exact absurd hb he
      rw [updateLoop, if_neg (by simp [he'])] at h
      cases hrec : updateLoop all u now rest with
      | error err => rw [hrec] at h; cases h
      | ok rest' =>
        rw [hrec] at h
        cases h
        obtain ⟨hconf, pre, e₀, rest₀, hl, hl', hm, hpre⟩ := ih hrec
        refine ⟨hconf, e :: pre, e₀, rest₀, by simp [hl], by simp [hl'], hm, ?_⟩
        intro x hx
        rcases List.mem_cons.mp hx with rfl | hx'
        · exact he'
        · exact hpre x hx'

theorem updateLoop_ok_exists {u : User} {now : Nat} {all : List User}
    (hconf : all.any (updateConflict u) = false) :
    ∀ l : List User, (∃ x ∈ l, matchesID u.id x = true) →
      ∃ l', updateLoop all u now l = .ok l' := by
  intro l
  induction l with
  | nil => rintro ⟨x, hx, _⟩; cases hx
  | cons e rest ih =>
    rintro ⟨x, hx, hmx⟩
    by_cases he : matchesID u.id e = true
    · refine ⟨{ u with updatedAt := now, createdAt := e.createdAt } :: rest, ?_⟩
      simp [updateLoop, he, hconf]
    · have he' : matchesID u.id e = false := by
        cases hb : matchesID u.id e
        · rfl
        · exact absurd hb he
      rcases List.mem_cons.mp hx with rfl | hx'
      · exact absurd hmx he
      · obtain ⟨rest', hrest⟩ := ih ⟨x, hx', hmx⟩
        exact ⟨e :: rest', by simp [updateLoop, he', hrest]⟩

theorem deleteLoop_notFound {id now : Nat} :
    ∀ l : List User, (∀ x ∈ l, matchesID id x = false) →
      deleteLoop id now l = .error .recordNotFound := by
  intro l
  induction l with
  | nil => intro _; rfl
  | cons e rest ih =>
    intro h
    have he : matchesID id e = false := h e (List.mem_cons_self e rest)
    have hrest := ih fun x hx => h x (List.mem_cons_of_mem e hx)
    simp [deleteLoop, he, hrest]

theorem deleteLoop_ok_decomp {id now : Nat} :
    ∀ {l l' : List User}, deleteLoop id now l = .ok l' →
      ∃ pre e rest, l = pre ++ e :: rest ∧
        l' = pre ++ { e with deletedAt := some now } :: rest ∧
        matchesID id e = true ∧
        ∀ x ∈ pre, matchesID id x = false := by
  intro l
  induction l with
  | nil => intro l' h; cases h
  | cons e rest ih =>
    intro l' h
    by_cases he : matchesID id e = true
    · rw [deleteLoop, if_pos he] at h
      cases h
      exact ⟨[], e, rest, rfl, rfl, he, by intro x hx; cases hx⟩
    · have he' : matchesID id e = false := by
        cases hb : matchesID id e
        · rfl
        · exact absurd hb he
      rw [deleteLoop, if_neg (by simp [he'])] at h
      cases hrec : deleteLoop id now rest with
      | error err => rw [hrec] at h; cases h
      | ok rest' =>
        rw [hrec] at h
        cases h
        obtain ⟨pre, e₀, rest₀, hl, hl', hm, hpre⟩ := ih hrec
        refine ⟨e :: pre, e₀, rest₀, by simp [hl], by simp [hl'], hm, ?_⟩
        intro x hx
        rcases List.mem_cons.mp hx with rfl | hx'
        · exact he'
        · exact hpre x hx'

theorem Update_ok_decomp {s s' : InMemoryUserRepository} {u : User} {now : Nat}
    (h : s.Update u now = .ok s') :
    s'.nextID = s.nextID ∧ s.users.any (updateConflict u) = false ∧
    ∃ pre e rest, s.users = pre ++ e :: rest ∧
      s'.users = pre ++ { u with updatedAt := now, createdAt := e.createdAt } :: rest ∧
      matchesID u.id e = true ∧ ∀ x ∈ pre, matchesID u.id x = false := by
  unfold InMemoryUserRepository.Update at h
  cases hl : updateLoop s.users u now s.users with
  | error err => rw [hl] at h; cases h
  | ok users' =>
    rw [hl] at h
    cases h
    obtain ⟨hconf, rest⟩ := updateLoop_ok_decomp hl
    exact ⟨rfl, hconf, rest⟩

theorem Update_notFound {s : InMemoryUserRepository} {u : User} {now : Nat}
    (h : ∀ x ∈ s.users, matchesID u.id x = false) :
    s.Update u now = .error .recordNotFound := by
  unfold InMemoryUserRepository.Update
  rw [updateLoop_notFound s.users s.users h]

theorem Update_conflict {s : InMemoryUserRepository} {u : User} {now : Nat}
    (hx : ∃ x ∈ s.users, matchesID u.id x = true)
    (hconf : s.users.any (updateConflict u) = true) :
    s.Update u now = .error .emailAlreadyExists := by
  unfold InMemoryUserRepository.Update
  rw [updateLoop_conflict hconf s.users hx]

theorem Update_ok_exists {s : InMemoryUserRepository} {u : User} {now : Nat}
    (hx : ∃ x ∈ s.users, matchesID u.id x = true)
    (hconf : s.users.any (updateConflict u) = false) :
    ∃ s', s.Update u now = .ok s' := by
  obtain ⟨users', hl⟩ := updateLoop_ok_exists hconf s.users hx
  exact ⟨{ s with users := users' }, by unfold InMemoryUserRepository.Update; rw [hl]⟩

theorem deleteLoop_ok_exists {id now : Nat} :
    ∀ l : List User, (∃ x ∈ l, matchesID id x = true) →
      ∃ l', deleteLoop id now l = .ok l' := by
  intro l
  induction l with
  | nil => rintro ⟨x, hx, _⟩; cases hx
  | cons e rest ih =>
    rintro ⟨x, hx, hmx⟩
    by_cases he : matchesID id e = true
    · exact ⟨{ e with deletedAt := some now } :: rest, by simp [deleteLoop, he]⟩
    · have he' : matchesID id e = false := by
        cases hb : matchesID id e
        · rfl
        · exact absurd hb he
      rcases List.mem_cons.mp hx with rfl | hx'
      · exact absurd hmx he
      · obtain ⟨rest', hrest⟩ := ih ⟨x, hx', hmx⟩
        exact ⟨e :: rest', by simp [deleteLoop, he', hrest]⟩

theorem Delete_ok_decomp {s s' : InMemoryUserRepository} {id now : Nat}
    (h : s.Delete id now = .ok s') :
    s'.nextID = s.nextID ∧
    ∃ pre e rest, s.users = pre ++ e :: rest ∧
      s'.users = pre ++ { e with deletedAt := some now } :: rest ∧
      matchesID id e = true ∧ ∀ x ∈ pre, matchesID id x = false := by
  unfold InMemoryUserRepository.Delete at h
  cases hl : deleteLoop id now s.users with
  | error err => rw [hl] at h; cases h
  | ok users' =>
    rw [hl] at h
    cases h
    exact ⟨rfl, deleteLoop_ok_decomp hl⟩

theorem Delete_notFound {s : InMemoryUserRepository} {id now : Nat}
    (h : ∀ x ∈ s.users, matchesID id x = false) :
    s.Delete id now = .error .recordNotFound := by
  unfold InMemoryUserRepository.Delete
  rw [deleteLoop_notFound s.users h]

theorem Delete_ok_exists {s : InMemoryUserRepository} {id now : Nat}
    (hx : ∃ x ∈ s.users, matchesID id x = true) :
    ∃ s', s.Delete id now = .ok s' := by
  obtain ⟨users', hl⟩ := deleteLoop_ok_exists s.users hx
  exact ⟨{ s with users := users' }, by unfold InMemoryUserRepository.Delete; rw [hl]⟩

/-! Lemmas relating the invariant to the list decompositions. -/

theorem nodup_ids_middle {pre rest : List User} {e : User}
    (h : (((pre ++ e :: rest).map User.id)).Nodup) :
    ∀ x : User, x ∈ pre ∨ x ∈ rest → x.id ≠ e.id := by
  rw [List.map_append, List.map_cons, List.nodup_middle, List.nodup_cons] at h
  intro x hx heq
  apply h.1
  rw [← List.map_append]
  exact List.mem_map.mpr ⟨x, List.mem_append.mpr hx, heq⟩

theorem live_email_unique {s : InMemoryUserRepository} (hs : emailsUnique s)
    {x y : User} (hx : x ∈ s.users) (hy : y ∈ s.users)
    (hlx : x.notDeleted = true) (hly : y.notDeleted = true)
    (hemail : x.email = y.email) : x = y := by
  have hx' : x ∈ s.users.filter User.notDeleted := List.mem_filter.mpr ⟨hx, hlx⟩
  have hy' : y ∈ s.users.filter User.notDeleted := List.mem_filter.mpr ⟨hy, hly⟩
  exact List.inj_on_of_nodup_map hs hx' hy' hemail

theorem no_conflict_of_inv {s : InMemoryUserRepository} (hInv : StoreInv s)
    {user : User} (hmem : user ∈ s.users) (hlive : user.notDeleted = true)
    {u' : User} (hemail : u'.email = user.email) (hid : u'.id = user.id) :
    s.users.any (updateConflict u') = false := by
  cases hany : s.users.any (updateConflict u') with
  | false => rfl
  | true =>
    exfalso
    obtain ⟨o, ho, hconf⟩ := List.any_eq_true.mp hany
    obtain ⟨hoe, hoid, holive⟩ := updateConflict_iff.mp hconf
    have : o = user := live_email_unique hInv.2 ho hmem holive hlive (by rw [hoe, hemail])
    subst this
    exact hoid (by rw [hid])

/-- The emails of the non-deleted records of a slice, in order. -/
def liveEmailsOf (l : List User) : List String :=
  (l.filter User.notDeleted).map User.email

theorem emailsUnique_iff {s : InMemoryUserRepository} :
    emailsUnique s ↔ (liveEmailsOf s.users).Nodup := Iff.rfl

theorem liveEmailsOf_append (l₁ l₂ : List User) :
    liveEmailsOf (l₁ ++ l₂) = liveEmailsOf l₁ ++ liveEmailsOf l₂ := by
  simp [liveEmailsOf]

theorem liveEmailsOf_cons_live {e : User} (he : e.notDeleted = true) (l : List User) :
    liveEmailsOf (e :: l) = e.email :: liveEmailsOf l := by
  simp [liveEmailsOf, List.filter_cons, he]

theorem liveEmailsOf_cons_dead {e : User} (he : e.notDeleted = false) (l : List User) :
    liveEmailsOf (e :: l) = liveEmailsOf l := by
  simp [liveEmailsOf, List.filter_cons, he]

theorem mem_liveEmailsOf {em : String} {l : List User} :
    em ∈ liveEmailsOf l ↔ ∃ x ∈ l, x.notDeleted = true ∧ x.email = em := by
  simp only [liveEmailsOf, List.mem_map, List.mem_filter]
  constructor
  · rintro ⟨x, ⟨hx, hlx⟩, hxe⟩
    exact ⟨x, hx, hlx, hxe⟩
  · rintro ⟨x, hx, hlx, hxe⟩
    exact ⟨x, ⟨hx, hlx⟩, hxe⟩

theorem liveEmailsOf_middle_live {pre rest : List User} {e : User}
    (he : e.notDeleted = true) :
    liveEmailsOf (pre ++ e :: rest) = liveEmailsOf pre ++ e.email :: liveEmailsOf rest := by
  rw [liveEmailsOf_append, liveEmailsOf_cons_live he]

theorem liveEmailsOf_middle_dead {pre rest : List User} {e : User}
    (he : e.notDeleted = false) :
    liveEmailsOf (pre ++ e :: rest) = liveEmailsOf pre ++ liveEmailsOf rest := by
  rw [liveEmailsOf_append, liveEmailsOf_cons_dead he]

theorem nodup_of_middle_live {pre rest : List User} {e : User}
    (he : e.notDeleted = true)
    (h : (liveEmailsOf (pre ++ e :: rest)).Nodup) :
    e.email ∉ liveEmailsOf pre ++ liveEmailsOf rest ∧
    (liveEmailsOf pre ++ liveEmailsOf rest).Nodup := by
  rw [liveEmailsOf_middle_live he, List.nodup_middle, List.nodup_cons] at h
  exact h

theorem nodup_insert_middle_live {pre rest : List User} {x : User}
    (hx : x.notDeleted = true)
    (hmem : x.email ∉ liveEmailsOf pre ++ liveEmailsOf rest)
    (h : (liveEmailsOf pre ++ liveEmailsOf rest).Nodup) :
    (liveEmailsOf (pre ++ x :: rest)).Nodup := by
  rw [liveEmailsOf_middle_live hx, List.nodup_middle, List.nodup_cons]
  exact ⟨hmem, h⟩

/-! Invariant preservation by the three mutating operations. -/

theorem Create_ok_decomp {s s' : InMemoryUserRepository} {u u' : User} {now : Nat}
    (h : s.Create u now = .ok (s', u')) :
    s.users.any (hasLiveEmail u.email) = false ∧
    u' = { u with id := s.nextID, createdAt := now, updatedAt := now } ∧
    s'.users = s.users ++ [u'] ∧ s'.nextID = s.nextID + 1 := by
  unfold InMemoryUserRepository.Create at h
  cases hg : s.users.any (hasLiveEmail u.email) with
  | true => rw [hg] at h; simp at h
  | false =>
    rw [hg] at h
    simp only [Bool.false_eq_true, if_false] at h
    injection h with h
    injection h with h1 h2
    subst h1
    subst h2
    exact ⟨rfl, rfl, rfl, rfl⟩

theorem Create_ok_inv {s s' : InMemoryUserRepository} {u u' : User} {now : Nat}
    (hInv : StoreInv s) (h : s.Create u now = .ok (s', u')) : StoreInv s' := by
  obtain ⟨hg, hu', hsu, hsn⟩ := Create_ok_decomp h
  subst hu'
  have hnotin : s.nextID ∉ s.users.map User.id := by
    intro hmem
    obtain ⟨x, hx, hxe⟩ := List.mem_map.mp hmem
    exact absurd hxe (Nat.ne_of_lt (hInv.1.2 x hx))
  refine ⟨⟨?_, ?_⟩, ?_⟩
  · rw [hsu, List.map_append, List.map_cons, List.map_nil]
    rw [List.nodup_append]
    exact ⟨hInv.1.1, List.nodup_singleton _,
      fun a ha hb => hnotin (by rwa [List.mem_singleton.mp hb] at ha)⟩
  · intro x hx
    rw [hsu] at hx
    rw [hsn]
    rcases List.mem_append.mp hx with hx' | hx'
    · exact Nat.lt_succ_of_lt (hInv.1.2 x hx')
    · rw [List.mem_singleton.mp hx']
      exact Nat.lt_succ_self _
  · rw [emailsUnique_iff, hsu, liveEmailsOf_append]
    cases hlive : User.notDeleted { u with id := s.nextID, createdAt := now, updatedAt := now } with
    | false =>
      rw [liveEmailsOf_cons_dead hlive]
      simpa [liveEmailsOf] using hInv.2
    | true =>
      rw [liveEmailsOf_cons_live hlive]
      have hne : u.email ∉ liveEmailsOf s.users := by
        intro hmem
        obtain ⟨x, hx, hlx, hxe⟩ := mem_liveEmailsOf.mp hmem
        have := List.any_eq_true.mpr ⟨x, hx, hasLiveEmail_iff.mpr ⟨hxe, hlx⟩⟩
        rw [hg] at this
        cases this
      rw [List.nodup_append]
      exact ⟨hInv.2, List.nodup_singleton _,
        fun a ha hb => hne (by rwa [show a = u.email from List.mem_singleton.mp hb] at ha)⟩

theorem Update_ok_inv {s s' : InMemoryUserRepository} {u : User} {now : Nat}
    (hInv : StoreInv s) (h : s.Update u now = .ok s') : StoreInv s' := by
  obtain ⟨hnid, hconf, pre, e, rest, hsu, hsu', hme, hpre⟩ := Update_ok_decomp h
  obtain ⟨heid, helive⟩ := matchesID_iff.mp hme
  have hidne : ∀ x : User, x ∈ pre ∨ x ∈ rest → x.id ≠ e.id := by
    apply nodup_ids_middle
    have hids0 := hInv.1.1
    rwa [hsu] at hids0
  have he_mem : e ∈ s.users := by
    rw [hsu]
    exact List.mem_append.mpr (Or.inr (List.mem_cons_self _ _))
  refine ⟨⟨?_, ?_⟩, ?_⟩
  · rw [hsu', List.map_append, List.map_cons]
    have hids0 := hInv.1.1
    rw [hsu, List.map_append, List.map_cons, heid] at hids0
    exact hids0
  · intro x hx
    rw [hnid]
    rw [hsu'] at hx
    rcases List.mem_append.mp hx with hx' | hx'
    · exact hInv.1.2 x (by rw [hsu]; exact List.mem_append.mpr (Or.inl hx'))
    · rcases List.mem_cons.mp hx' with rfl | hx''
      · show u.id < s.nextID
        rw [← heid]
        exact hInv.1.2 e he_mem
      · exact hInv.1.2 x
          (by rw [hsu]; exact List.mem_append.mpr (Or.inr (List.mem_cons_of_mem _ hx'')))
  · have hemails := hInv.2
    rw [emailsUnique_iff, hsu] at hemails
    obtain ⟨hnotin, hnodup⟩ := nodup_of_middle_live helive hemails
    rw [emailsUnique_iff, hsu']
    cases hlive' : User.notDeleted { u with updatedAt := now, createdAt := e.createdAt } with
    | false =>
      rw [liveEmailsOf_middle_dead hlive']
      exact hnodup
    | true =>
      rw [liveEmailsOf_middle_live hlive', List.nodup_middle, List.nodup_cons]
      refine ⟨?_, hnodup⟩
      intro hmem
      rw [← liveEmailsOf_append] at hmem
      obtain ⟨x, hx, hlx, hxe⟩ := mem_liveEmailsOf.mp hmem
      have hx' : x ∈ pre ∨ x ∈ rest := List.mem_append.mp hx
      have hxid : x.id ≠ u.id := by
        rw [← heid]
        exact hidne x hx'
      have hxs : x ∈ s.users := by
        rw [hsu]
        rcases hx' with h1 | h1
        · exact List.mem_append.mpr (Or.inl h1)
        · exact List.mem_append.mpr (Or.inr (List.mem_cons_of_mem _ h1))
      have hc : updateConflict u x = true := updateConflict_iff.mpr ⟨hxe, hxid, hlx⟩
      have hany := List.any_eq_true.mpr ⟨x, hxs, hc⟩
      rw [hconf] at hany
      cases hany

theorem Delete_ok_inv {s s' : InMemoryUserRepository} {id now : Nat}
    (hInv : StoreInv s) (h : s.Delete id now = .ok s') : StoreInv s' := by
  obtain ⟨hnid, pre, e, rest, hsu, hsu', hme, hpre⟩ := Delete_ok_decomp h
  obtain ⟨heid, helive⟩ := matchesID_iff.mp hme
  have he_mem : e ∈ s.users := by
    rw [hsu]
    exact List.mem_append.mpr (Or.inr (List.mem_cons_self _ _))
  refine ⟨⟨?_, ?_⟩, ?_⟩
  · rw [hsu', List.map_append, List.map_cons]
    have hids0 := hInv.1.1
    rw [hsu, List.map_append, List.map_cons] at hids0
    exact hids0
  · intro x hx
    rw [hnid]
    rw [hsu'] at hx
    rcases List.mem_append.mp hx with hx' | hx'
    · exact hInv.1.2 x (by rw [hsu]; exact List.mem_append.mpr (Or.inl hx'))
    · rcases List.mem_cons.mp hx' with rfl | hx''
      · show e.id < s.nextID
        exact hInv.1.2 e he_mem
      · exact hInv.1.2 x
          (by rw [hsu]; exact List.mem_append.mpr (Or.inr (List.mem_cons_of_mem _ hx'')))
  · have hemails := hInv.2
    rw [emailsUnique_iff, hsu] at hemails
    obtain ⟨_, hnodup⟩ := nodup_of_middle_live helive hemails
    have hdead : User.notDeleted { e with deletedAt := some now } = false := by
      simp [User.notDeleted]
    rw [emailsUnique_iff, hsu', liveEmailsOf_middle_dead hdead]
    exact hnodup

theorem applyOp_inv {s : InMemoryUserRepository} {op : Op} (hInv : StoreInv s) :
    StoreInv (applyOp s op) := by
  cases op with
  | createOp u now =>
    cases h : s.Create u now with
    | ok p =>
      obtain ⟨s', u'⟩ := p
      simp only [applyOp, h]
      exact Create_ok_inv hInv h
    | error e => simp only [applyOp, h]; exact hInv
  | updateOp u now =>
    cases h : s.Update u now with
    | ok s' => simp only [applyOp, h]; exact Update_ok_inv hInv h
    | error e => simp only [applyOp, h]; exact hInv
  | deleteOp id now =>
    cases h : s.Delete id now with
    | ok s' => simp only [applyOp, h]; exact Delete_ok_inv hInv h
    | error e => simp only [applyOp, h]; exact hInv

theorem run_inv (ops : List Op) :
    ∀ s : InMemoryUserRepository, StoreInv s → StoreInv (run s ops) := by
  induction ops with
  | nil => intro s h; exact h
  | cons op rest ih => intro s h; exact ih _ (applyOp_inv h)

theorem StoreInv_new (t : Nat) : StoreInv (NewInMemoryUserRepository t) := by
  refine ⟨⟨?_, ?_⟩, ?_⟩
  · show ([1, 2, 3] : List Nat).Nodup
    decide
  · intro u hu
    have hu' : u = sampleUser 1 t "John Doe" "john@example.com" (some "+1-555-0101")
          (some "123 Main St, New York, NY 10001") ∨
        u = sampleUser 2 t "Jane Smith" "jane@example.com" (some "+1-555-0102")
          (some "456 Oak Ave, Los Angeles, CA 90210") ∨
        u = sampleUser 3 t "Bob Johnson" "bob@example.com" (some "+1-555-0103") none := by
      simpa [NewInMemoryUserRepository] using hu
    rcases hu' with rfl | rfl | rfl <;> simp [sampleUser, NewInMemoryUserRepository]
  · show (["john@example.com", "jane@example.com", "bob@example.com"] : List String).Nodup
    decide

theorem length_filter_le_one_of_nodup_map {l : List User}
    (h : (l.map User.email).Nodup) (email : String) :
    (l.filter (fun u => u.email == email)).length ≤ 1 := by
  induction l with
  | nil => simp
  | cons x l ih =>
    rw [List.map_cons, List.nodup_cons] at h
    cases hx : (x.email == email) with
    | false =>
      rw [List.filter_cons]
      simpa [hx] using ih h.2
    | true =>
      have hnil : l.filter (fun u => u.email == email) = [] := by
        rw [List.filter_eq_nil_iff]
        intro a ha hae
        apply h.1
        refine List.mem_map.mpr ⟨a, ha, ?_⟩
        rw [beq_iff_eq] at hx hae
        rw [hae, hx]
      simp [List.filter_cons, hx, hnil]

/-- Claim C1: email uniqueness invariant of the user store. In every store
reachable from the initial store by Create/Update/Delete sequences, at most
one non-deleted record holds any given email; a Create whose email equals
that of an existing non-deleted record fails with the duplicate-email error
and leaves the store unchanged; and an Update aiming at an existing
non-deleted record whose new email is already owned by a different
non-deleted record fails with the duplicate-email error and leaves the store
unchanged. -/
theorem email_uniqueness_invariant :
    (∀ (t : Nat) (ops : List Op) (email : String),
      (((run (NewInMemoryUserRepository t) ops).users.filter User.notDeleted).filter
          (fun u => u.email == email)).length ≤ 1) ∧
    (∀ (s : InMemoryUserRepository) (u : User) (now : Nat),
      (∃ e ∈ s.users, e.notDeleted = true ∧ e.email = u.email) →
      s.Create u now = .error .emailAlreadyExists ∧ applyOp s (Op.createOp u now) = s) ∧
    (∀ (s : InMemoryUserRepository) (u : User) (now : Nat),
      (∃ e ∈ s.users, e.notDeleted = true ∧ e.id = u.id) →
      (∃ o ∈ s.users, o.notDeleted = true ∧ o.id ≠ u.id ∧ o.email = u.email) →
      s.Update u now = .error .emailAlreadyExists ∧ applyOp s (Op.updateOp u now) = s) := by
  refine ⟨?_, ?_, ?_⟩
  · intro t ops email
    have hInv := run_inv ops _ (StoreInv_new t)
    exact length_filter_le_one_of_nodup_map hInv.2 email
  · rintro s u now ⟨e, he, hlive, hemail⟩
    have hany : s.users.any (hasLiveEmail u.email) = true :=
      List.any_eq_true.mpr ⟨e, he, hasLiveEmail_iff.mpr ⟨hemail, hlive⟩⟩
    have hc : s.Create u now = .error .emailAlreadyExists := by
      unfold InMemoryUserRepository.Create
      rw [if_pos hany]
    exact ⟨hc, by simp [applyOp, hc]⟩
  · rintro s u now ⟨e, he, hlive, heid⟩ ⟨o, ho, holive, hoid, hoem⟩
    have hany : s.users.any (updateConflict u) = true :=
      List.any_eq_true.mpr ⟨o, ho, updateConflict_iff.mpr ⟨hoem, hoid, holive⟩⟩
    have hx : ∃ x ∈ s.users, matchesID u.id x = true :=
      ⟨e, he, matchesID_iff.mpr ⟨heid, hlive⟩⟩
    have hu := @Update_conflict s u now hx hany
    exact ⟨hu, by simp [applyOp, hu]⟩

/-- Witness for claim C1 at a concrete input: creating a second
john at example com in the initial store fails with the duplicate-email
error and leaves the store unchanged. -/
theorem email_uniqueness_invariant_witness :
    (NewInMemoryUserRepository 0).Create
        (sampleUser 0 0 "Impostor" "john@example.com" none none) 5 =
      .error .emailAlreadyExists ∧
    applyOp (NewInMemoryUserRepository 0)
        (Op.createOp (sampleUser 0 0 "Impostor" "john@example.com" none none) 5) =
      NewInMemoryUserRepository 0 :=
  email_uniqueness_invariant.2.1 (NewInMemoryUserRepository 0)
    (sampleUser 0 0 "Impostor" "john@example.com" none none) 5 (by decide)

/-- Claim C5: soft-delete semantics. If the store satisfies the invariant and
GetByID finds a non-deleted record with the given id, then Delete succeeds,
the record is retained with deleted-at set to the deletion time, GetByID now
reports not-found, GetAll no longer surfaces the id, Count drops by one, and
a second Delete of the same id fails with not-found. -/
theorem soft_delete_semantics (s : InMemoryUserRepository) (id now now2 : Nat) (u : User)
    (hInv : StoreInv s) (hget : s.GetByID id = .ok u) :
    ∃ s', s.Delete id now = .ok s' ∧
      (∃ e ∈ s'.users, e.id = id ∧ e.deletedAt = some now) ∧
      s'.GetByID id = .error .recordNotFound ∧
      (∀ v ∈ s'.GetAll, v.id ≠ id) ∧
      s'.Count + 1 = s.Count ∧
      s'.Delete id now2 = .error .recordNotFound := by
  have hfind := GetByID_ok_iff.mp hget
  have hmem := List.mem_of_find?_eq_some hfind
  have hmatch := List.find?_some hfind
  obtain ⟨s', hdel⟩ := Delete_ok_exists ⟨u, hmem, hmatch⟩
  obtain ⟨hnid, pre, e, rest, hsu, hsu', hme, hpre⟩ := Delete_ok_decomp hdel
  obtain ⟨heid, helive⟩ := matchesID_iff.mp hme
  have hidne : ∀ x : User, x ∈ pre ∨ x ∈ rest → x.id ≠ e.id := by
    apply nodup_ids_middle
    have := hInv.1.1
    rwa [hsu] at this
  have hnone : ∀ x ∈ s'.users, matchesID id x = false := by
    intro x hx
    rw [hsu'] at hx
    rcases List.mem_append.mp hx with hx' | hx'
    · exact hpre x hx'
    · rcases List.mem_cons.mp hx' with rfl | hx''
      · simp [matchesID, User.notDeleted]
      · have hne : x.id ≠ id := by
          rw [← heid]
          exact hidne x (Or.inr hx'')
        have hne' : (x.id == id) = false := beq_eq_false_iff_ne.mpr hne
        simp [matchesID, hne']
  refine ⟨s', hdel, ?_, ?_, ?_, ?_, ?_⟩
  · refine ⟨{ e with deletedAt := some now }, ?_, heid, rfl⟩
    rw [hsu']
    exact List.mem_append.mpr (Or.inr (List.mem_cons_self _ _))
  · rw [GetByID_error_iff]
    exact ⟨rfl, hnone⟩
  · intro v hv
    simp only [InMemoryUserRepository.GetAll] at hv
    have hv' := List.mem_filter.mp hv
    intro hvid
    have hvm : matchesID id v = true := matchesID_iff.mpr ⟨hvid, hv'.2⟩
    rw [hnone v hv'.1] at hvm
    cases hvm
  · show s'.Count + 1 = s.Count
    unfold InMemoryUserRepository.Count
    rw [hsu, hsu', List.filter_append, List.filter_append, List.filter_cons, List.filter_cons]
    have hdead : User.notDeleted { e with deletedAt := some now } = false := by
      simp [User.notDeleted]
    simp [helive, hdead]
    omega
  · exact Delete_notFound hnone

/-- Witness for claim C5 at a concrete input: deleting user 1 of the initial
store. -/
theorem soft_delete_semantics_witness :
    ∃ s', (NewInMemoryUserRepository 0).Delete 1 5 = .ok s' ∧
      (∃ e ∈ s'.users, e.id = 1 ∧ e.deletedAt = some 5) ∧
      s'.GetByID 1 = .error .recordNotFound ∧
      (∀ v ∈ s'.GetAll, v.id ≠ 1) ∧
      s'.Count + 1 = (NewInMemoryUserRepository 0).Count ∧
      s'.Delete 1 9 = .error .recordNotFound :=
  soft_delete_semantics (NewInMemoryUserRepository 0) 1 5 9
    (sampleUser 1 0 "John Doe" "john@example.com" (some "+1-555-0101")
      (some "123 Main St, New York, NY 10001"))
    (by decide) rfl

/-- Claim C6: frame property of Update. It fails with not-found when no
non-deleted record has the id; on success the stored record keeps the
pre-existing record's created-at, its updated-at becomes the update time,
nextID is unchanged, and every record before and after the replaced position
is unchanged. -/
theorem update_frame (s : InMemoryUserRepository) (u : User) (now : Nat) :
    ((∀ x ∈ s.users, ¬(x.id = u.id ∧ x.notDeleted = true)) →
      s.Update u now = .error .recordNotFound) ∧
    (∀ s', s.Update u now = .ok s' →
      s'.nextID = s.nextID ∧
      ∃ pre e rest r, s.users = pre ++ e :: rest ∧ e.id = u.id ∧ e.notDeleted = true ∧
        r = { u with updatedAt := now, createdAt := e.createdAt } ∧
        r.createdAt = e.createdAt ∧ r.updatedAt = now ∧
        s'.users = pre ++ r :: rest) := by
  constructor
  · intro h
    apply Update_notFound
    intro x hx
    cases hm : matchesID u.id x with
    | false => rfl
    | true => exact absurd (matchesID_iff.mp hm) (h x hx)
  · intro s' h
    obtain ⟨hnid, hconf, pre, e, rest, hsu, hsu', hme, hpre⟩ := Update_ok_decomp h
    obtain ⟨heid, helive⟩ := matchesID_iff.mp hme
    exact ⟨hnid, pre, e, rest, _, hsu, heid, helive, rfl, rfl, rfl, hsu'⟩

/-- Witness for claim C6 at a concrete input: updating a nonexistent id 99
in the initial store fails with not-found. -/
theorem update_frame_witness :
    (NewInMemoryUserRepository 0).Update
        (sampleUser 99 0 "Ghost" "ghost@example.com" none none) 7 =
      .error .recordNotFound :=
  (update_frame (NewInMemoryUserRepository 0)
      (sampleUser 99 0 "Ghost" "ghost@example.com" none none) 7).1 (by decide)

theorem notDeleted_eq_none {u : User} (h : u.notDeleted = true) : u.deletedAt = none :=
  Option.isNone_iff_eq_none.mp h

theorem GetByID_ok_facts {s : InMemoryUserRepository} {id : Nat} {u : User}
    (h : s.GetByID id = .ok u) : u ∈ s.users ∧ u.id = id ∧ u.notDeleted = true := by
  have hfind := GetByID_ok_iff.mp h
  have hm := matchesID_iff.mp (List.find?_some hfind)
  exact ⟨List.mem_of_find?_eq_some hfind, hm.1, hm.2⟩

theorem GetByEmail_ok_facts {s : InMemoryUserRepository} {email : String} {u : User}
    (h : s.GetByEmail email = .ok u) : u ∈ s.users ∧ u.email = email ∧ u.notDeleted = true := by
  have hfind := GetByEmail_ok_iff.mp h
  have hm := hasLiveEmail_iff.mp (List.find?_some hfind)
  exact ⟨List.mem_of_find?_eq_some hfind, hm.1, hm.2⟩

/-- Updating an existing non-deleted record with an argument that keeps its id
and email succeeds under the store invariant, and the updated record is what
GetByID then returns. This is the shape of every update the auth service
performs. -/
theorem Update_self_ok (s : InMemoryUserRepository) (user arg : User) (now : Nat)
    (hInv : StoreInv s) (hmem : user ∈ s.users) (hlive : user.notDeleted = true)
    (hid : arg.id = user.id) (hemail : arg.email = user.email)
    (hargl : arg.deletedAt = none) :
    ∃ s', s.Update arg now = .ok s' ∧
      s'.GetByID user.id = .ok { arg with updatedAt := now, createdAt := user.createdAt } := by
  have hconf : s.users.any (updateConflict arg) = false :=
    no_conflict_of_inv hInv hmem hlive hemail hid
  have hx : ∃ x ∈ s.users, matchesID arg.id x = true :=
    ⟨user, hmem, matchesID_iff.mpr ⟨hid.symm, hlive⟩⟩
  obtain ⟨s', hupd⟩ := Update_ok_exists hx hconf
  obtain ⟨hnid, hconf', pre, e, rest, hsu, hsu', hme, hpre⟩ := Update_ok_decomp hupd
  obtain ⟨heid, helive⟩ := matchesID_iff.mp hme
  have hidne : ∀ x : User, x ∈ pre ∨ x ∈ rest → x.id ≠ e.id := by
    apply nodup_ids_middle
    have := hInv.1.1
    rwa [hsu] at this
  have huide : user.id = e.id := (heid.trans hid).symm
  have heu : e = user := by
    have humem := hmem
    rw [hsu] at humem
    rcases List.mem_append.mp humem with h1 | h1
    · exact absurd huide (hidne user (Or.inl h1))
    · rcases List.mem_cons.mp h1 with h2 | h2
      · exact h2.symm
      · exact absurd huide (hidne user (Or.inr h2))
  subst heu
  refine ⟨s', hupd, ?_⟩
  rw [GetByID_ok_iff, hsu', find?_append_of_forall_false _ ?_]
  · rw [List.find?_cons_of_pos]
    simp only [matchesID, User.notDeleted]
    rw [hid, hargl]
    simp
  · intro x hx'
    rw [← hid]
    exact hpre x hx'

/-- Claim C2: Login does not reveal account existence. An email matching no
non-deleted user and a matching active user whose password fails bcrypt
verification produce the identical error value, so two runs differing only in
whether the account exists return the same response; a matching user whose
active flag is false is rejected with the deactivated-account error instead
(before the password is even checked). -/
theorem login_masks_account_existence (jwtSecret : String) (jwtExpiry : Nat)
    (s : InMemoryUserRepository) (req : LoginRequest) (now : Nat) :
    (s.GetByEmail req.email = .error .recordNotFound →
      Login jwtSecret jwtExpiry s req now = .error "invalid email or password") ∧
    (∀ user, s.GetByEmail req.email = .ok user → user.isActive = true →
      bcryptCompareHashAndPassword user.password req.password = false →
      Login jwtSecret jwtExpiry s req now = .error "invalid email or password") ∧
    (∀ user, s.GetByEmail req.email = .ok user → user.isActive = false →
      Login jwtSecret jwtExpiry s req now = .error "account is deactivated") ∧
    (∀ (s₂ : InMemoryUserRepository) (user : User),
      s.GetByEmail req.email = .error .recordNotFound →
      s₂.GetByEmail req.email = .ok user → user.isActive = true →
      bcryptCompareHashAndPassword user.password req.password = false →
      Login jwtSecret jwtExpiry s req now = Login jwtSecret jwtExpiry s₂ req now) := by
  have habsent : s.GetByEmail req.email = .error .recordNotFound →
      Login jwtSecret jwtExpiry s req now = .error "invalid email or password" := by
    intro h
    simp [Login, h]
  have hwrong : ∀ (s₀ : InMemoryUserRepository) (user : User),
      s₀.GetByEmail req.email = .ok user → user.isActive = true →
      bcryptCompareHashAndPassword user.password req.password = false →
      Login jwtSecret jwtExpiry s₀ req now = .error "invalid email or password" := by
    intro s₀ user h hact hcmp
    simp [Login, h, hact, hcmp]
  refine ⟨habsent, fun user h hact hcmp => hwrong s user h hact hcmp, ?_, ?_⟩
  · intro user h hact
    simp [Login, h, hact]
  · intro s₂ user h1 h2 hact hcmp
    rw [habsent h1, hwrong s₂ user h2 hact hcmp]

/-- Witness for claim C2 at a concrete input: logging in with an email absent
from the initial store yields the invalid-credentials error. -/
theorem login_masks_account_existence_witness :
    Login "secret" 86400 (NewInMemoryUserRepository 0)
        { email := "nobody@example.com", password := "pw" } 3 =
      .error "invalid email or password" :=
  (login_masks_account_existence "secret" 86400 (NewInMemoryUserRepository 0)
      { email := "nobody@example.com", password := "pw" } 3).1 rfl

/-- A registered active user holding a pending password-reset token, used as
a concrete fixture by several witnesses. -/
def demoUser : User :=
  { sampleUser 1 0 "Demo" "demo@example.com" none none with
      password := bcryptGenerateFromPassword "oldpass", isActive := true,
      passwordResetToken := some "tok123", passwordResetExpiry := some 100 }

/-- A one-user store around demoUser. -/
def demoStore : InMemoryUserRepository := { users := [demoUser], nextID := 2 }

/-- Claim C3: ResetPassword error behaviour and effect. A mismatched
confirmation fails with the password-mismatch error; an unknown reset token,
a null expiry and a passed expiry all fail with one identical error; and with
a valid unexpired token the stored password hash is replaced by the hash of
the new password and both the reset token and its expiry are cleared. -/
theorem reset_password_spec (s : InMemoryUserRepository) (req : ResetPasswordRequest)
    (now : Nat) :
    (req.newPassword ≠ req.confirmPassword →
      ResetPassword s req now = .error "passwords do not match") ∧
    (∀ err, req.newPassword = req.confirmPassword →
      s.GetByPasswordResetToken req.token = .error err →
      ResetPassword s req now = .error "invalid or expired reset token") ∧
    (∀ user, req.newPassword = req.confirmPassword →
      s.GetByPasswordResetToken req.token = .ok user →
      user.passwordResetExpiry = none →
      ResetPassword s req now = .error "invalid or expired reset token") ∧
    (∀ user expiry, req.newPassword = req.confirmPassword →
      s.GetByPasswordResetToken req.token = .ok user →
      user.passwordResetExpiry = some expiry → expiry < now →
      ResetPassword s req now = .error "invalid or expired reset token") ∧
    (∀ user expiry, StoreInv s → req.newPassword = req.confirmPassword →
      s.GetByPasswordResetToken req.token = .ok user →
      user.passwordResetExpiry = some expiry → now ≤ expiry →
      ∃ s', ResetPassword s req now = .ok s' ∧
        s'.GetByID user.id = .ok { user with
          password := bcryptGenerateFromPassword req.newPassword,
          passwordResetToken := none, passwordResetExpiry := none,
          updatedAt := now }) := by
  refine ⟨?_, ?_, ?_, ?_, ?_⟩
  · intro hne
    simp [ResetPassword, hne]
  · intro err heq herr
    simp [ResetPassword, heq, herr]
  · intro user heq hok hexp
    simp [ResetPassword, heq, hok, hexp]
  · intro user expiry heq hok hexp hlt
    simp [ResetPassword, heq, hok, hexp, hlt]
  · intro user expiry hInv heq hok hexp hle
    obtain ⟨hmem, htok, hlive⟩ := GetByPasswordResetToken_ok hok
    obtain ⟨s', hupd, hget⟩ := Update_self_ok s user
      { user with password := bcryptGenerateFromPassword req.newPassword,
                  passwordResetToken := none, passwordResetExpiry := none } now
      hInv hmem hlive rfl rfl (notDeleted_eq_none hlive)
    have hnlt : ¬ expiry < now := by omega
    refine ⟨s', ?_, hget⟩
    rw [heq] at hupd
    simp [ResetPassword, heq, hok, hexp, hnlt, hupd]

/-- Witness for claim C3 at a concrete input: resetting with the pending
token of demoStore before its expiry succeeds and clears the token. -/
theorem reset_password_spec_witness :
    ∃ s', ResetPassword demoStore
        { token := "tok123", newPassword := "npw", confirmPassword := "npw" } 50 = .ok s' ∧
      s'.GetByID demoUser.id = .ok { demoUser with
        password := bcryptGenerateFromPassword "npw",
        passwordResetToken := none, passwordResetExpiry := none, updatedAt := 50 } :=
  (reset_password_spec demoStore
      { token := "tok123", newPassword := "npw", confirmPassword := "npw" } 50).2.2.2.2
    demoUser 100 (by decide) rfl rfl rfl (by decide)

/-- Claim C7: ChangePassword error kinds. Mismatched new and confirm
passwords fail with the validation message, a missing user fails with the
not-found message, a wrong current password fails with the
incorrect-current-password message, and on success the new password hash is
persisted for the user. -/
theorem change_password_spec (s : InMemoryUserRepository) (userID : Nat)
    (req : ChangePasswordRequest) (now : Nat) :
    (req.newPassword ≠ req.confirmPassword →
      ChangePassword s userID req now = .error "passwords do not match") ∧
    (∀ err, req.newPassword = req.confirmPassword →
      s.GetByID userID = .error err →
      ChangePassword s userID req now = .error "user not found") ∧
    (∀ user, req.newPassword = req.confirmPassword →
      s.GetByID userID = .ok user →
      bcryptCompareHashAndPassword user.password req.currentPassword = false →
      ChangePassword s userID req now = .error "current password is incorrect") ∧
    (∀ user, StoreInv s → req.newPassword = req.confirmPassword →
      s.GetByID userID = .ok user →
      bcryptCompareHashAndPassword user.password req.currentPassword = true →
      ∃ s', ChangePassword s userID req now = .ok s' ∧
        s'.GetByID userID = .ok { user with
          password := bcryptGenerateFromPassword req.newPassword,
          updatedAt := now }) := by
  refine ⟨?_, ?_, ?_, ?_⟩
  · intro hne
    simp [ChangePassword, hne]
  · intro err heq herr
    simp [ChangePassword, heq, herr]
  · intro user heq hok hcmp
    simp [ChangePassword, heq, hok, hcmp]
  · intro user hInv heq hok hcmp
    obtain ⟨hmem, huid, hlive⟩ := GetByID_ok_facts hok
    obtain ⟨s', hupd, hget⟩ := Update_self_ok s user
      { user with password := bcryptGenerateFromPassword req.newPassword } now
      hInv hmem hlive rfl rfl (notDeleted_eq_none hlive)
    refine ⟨s', ?_, ?_⟩
    · rw [heq] at hupd
      simp [ChangePassword, heq, hok, hcmp, hupd]
    · rw [← huid]
      exact hget

/-- Witness for claim C7 at a concrete input: changing demoStore user 1's
password with the correct current password succeeds and stores the new hash. -/
theorem change_password_spec_witness :
    ∃ s', ChangePassword demoStore 1
        { currentPassword := "oldpass", newPassword := "npw2", confirmPassword := "npw2" } 6 =
      .ok s' ∧
      s'.GetByID 1 = .ok { demoUser with
        password := bcryptGenerateFromPassword "npw2", updatedAt := 6 } :=
  (change_password_spec demoStore 1
      { currentPassword := "oldpass", newPassword := "npw2", confirmPassword := "npw2" } 6).2.2.2
    demoUser (by decide) rfl rfl rfl

/-- Claim C8: ForgotPassword masks existence and is side-effect-free on
unknown emails. Under the store invariant it always returns success; an
unknown email returns the store verbatim; and a known email stores the fresh
reset token with an expiry of now plus one hour. -/
theorem forgot_password_spec (s : InMemoryUserRepository) (req : ForgotPasswordRequest)
    (resetToken : String) (now : Nat) (hInv : StoreInv s) :
    (∃ s', ForgotPassword s req resetToken now = .ok s') ∧
    (∀ err, s.GetByEmail req.email = .error err →
      ForgotPassword s req resetToken now = .ok s) ∧
    (∀ user, s.GetByEmail req.email = .ok user →
      ∃ s', ForgotPassword s req resetToken now = .ok s' ∧
        s'.GetByID user.id = .ok { user with
          passwordResetToken := some resetToken,
          passwordResetExpiry := some (now + 3600), updatedAt := now }) := by
  have habs : ∀ err, s.GetByEmail req.email = .error err →
      ForgotPassword s req resetToken now = .ok s := by
    intro err herr
    have := GetByEmail_error_eq herr
    subst this
    simp [ForgotPassword, herr]
  have hfound : ∀ user, s.GetByEmail req.email = .ok user →
      ∃ s', ForgotPassword s req resetToken now = .ok s' ∧
        s'.GetByID user.id = .ok { user with
          passwordResetToken := some resetToken,
          passwordResetExpiry := some (now + 3600), updatedAt := now } := by
    intro user hok
    obtain ⟨hmem, hem, hlive⟩ := GetByEmail_ok_facts hok
    obtain ⟨s', hupd, hget⟩ := Update_self_ok s user
      { user with passwordResetToken := some resetToken,
                  passwordResetExpiry := some (now + 3600) } now
      hInv hmem hlive rfl rfl (notDeleted_eq_none hlive)
    refine ⟨s', ?_, hget⟩
    simp [ForgotPassword, hok, hupd]
  refine ⟨?_, habs, hfound⟩
  cases hg : s.GetByEmail req.email with
  | error e => exact ⟨s, habs e hg⟩
  | ok user =>
    obtain ⟨s', h1, _⟩ := hfound user hg
    exact ⟨s', h1⟩

/-- Witness for claim C8 at a concrete input: forgot-password for an unknown
email in demoStore reports success and leaves the store unchanged. -/
theorem forgot_password_spec_witness :
    ForgotPassword demoStore { email := "nobody@example.com" } "fresh-token" 7 =
      .ok demoStore :=
  (forgot_password_spec demoStore { email := "nobody@example.com" } "fresh-token" 7
      (by decide)).2.1 .recordNotFound rfl

/-- Claim C4: token issuance and validation round-trip. The token built by
generateJWTToken carries exactly the claim set with user_id, email,
iat = issue time, exp = iat plus the configured expiry and sub = the
stringified user id, reports ExpiresIn = the expiry in seconds, is accepted
by ValidateToken under the same secret at any time before exp, is rejected
at and after exp, and is rejected under any different secret. -/
theorem jwt_round_trip (jwtSecret : String) (jwtExpiry : Nat) (userID : Nat)
    (email : String) (now : Nat) :
    (generateJWTToken jwtSecret jwtExpiry userID email now).1.claims =
      { user_id := userID, email := email, iat := now, exp := now + jwtExpiry,
        sub := toString userID } ∧
    (generateJWTToken jwtSecret jwtExpiry userID email now).2 = jwtExpiry ∧
    (∀ t, t < now + jwtExpiry →
      ValidateToken jwtSecret (generateJWTToken jwtSecret jwtExpiry userID email now).1 t =
        .ok { user_id := userID, email := email, iat := now, exp := now + jwtExpiry,
              sub := toString userID }) ∧
    (∀ t, now + jwtExpiry ≤ t →
      ∃ msg, ValidateToken jwtSecret
          (generateJWTToken jwtSecret jwtExpiry userID email now).1 t = .error msg) ∧
    (∀ secret₂ t, secret₂ ≠ jwtSecret →
      ∃ msg, ValidateToken secret₂
          (generateJWTToken jwtSecret jwtExpiry userID email now).1 t = .error msg) := by
  refine ⟨rfl, rfl, ?_, ?_, ?_⟩
  · intro t ht
    simp [ValidateToken, generateJWTToken, hmacSign, ht]
  · intro t hle
    refine ⟨"token has invalid claims: token is expired", ?_⟩
    have hnlt : ¬ t < now + jwtExpiry := by omega
    simp [ValidateToken, generateJWTToken, hmacSign, hnlt]
  · intro secret₂ t hne
    refine ⟨"token signature is invalid", ?_⟩
    have hne' : jwtSecret ≠ secret₂ := fun h => hne h.symm
    simp [ValidateToken, generateJWTToken, hmacSign, Mac.mk.injEq, hne']

/-- Witness for claim C4 at a concrete input: a token issued at time 100 with
a 10-second expiry validates at time 105 to its claim set. -/
theorem jwt_round_trip_witness :
    ValidateToken "s" (generateJWTToken "s" 10 7 "ghost@example.com" 100).1 105 =
      .ok { user_id := 7, email := "ghost@example.com", iat := 100, exp := 110,
            sub := toString 7 } :=
  (jwt_round_trip "s" 10 7 "ghost@example.com" 100).2.2.1 105 (by decide)

/-- Claim C10: the plain AuthMiddleware authorizes from the token alone.
Whenever ValidateToken accepts the presented token, AuthMiddleware stores the
numeric user_id claim in the context and lets the handler run, for every
possible store state including ones where that user is soft-deleted or
deactivated, since the store is not an input of the middleware at all; only
EnhancedAuthMiddleware re-fetches the user and rejects a missing account or
a deactivated one. -/
theorem auth_middleware_token_only (jwtSecret : String) (tok : Token) (now : Nat)
    (claims : JWTClaims) (hval : ValidateToken jwtSecret tok now = .ok claims) :
    AuthMiddleware jwtSecret tok now = .proceed claims.user_id claims.email ∧
    (∀ s : InMemoryUserRepository, s.GetByID claims.user_id = .error .recordNotFound →
      EnhancedAuthMiddleware jwtSecret s tok now = .reject 401 "User not found") ∧
    (∀ (s : InMemoryUserRepository) (u : User), s.GetByID claims.user_id = .ok u →
      u.isActive = false →
      EnhancedAuthMiddleware jwtSecret s tok now = .reject 401 "Account is deactivated") ∧
    (∀ (s : InMemoryUserRepository) (u : User), s.GetByID claims.user_id = .ok u →
      u.isActive = true →
      EnhancedAuthMiddleware jwtSecret s tok now = .proceed claims.user_id u.email) := by
  refine ⟨?_, ?_, ?_, ?_⟩
  · simp [AuthMiddleware, hval]
  · intro s hnf
    simp [EnhancedAuthMiddleware, hval, GetUserByID, hnf]
  · intro s u hok hact
    simp [EnhancedAuthMiddleware, hval, GetUserByID, hok, hact]
  · intro s u hok hact
    simp [EnhancedAuthMiddleware, hval, GetUserByID, hok, hact]

/-- Witness for claim C10 at a concrete input: a valid token for user id 7
passes AuthMiddleware although no user 7 exists in the initial store, while
EnhancedAuthMiddleware rejects the same request. -/
theorem auth_middleware_token_only_witness :
    AuthMiddleware "s" (generateJWTToken "s" 10 7 "ghost@example.com" 100).1 105 =
        .proceed 7 "ghost@example.com" ∧
      EnhancedAuthMiddleware "s" (NewInMemoryUserRepository 0)
          (generateJWTToken "s" 10 7 "ghost@example.com" 100).1 105 =
        .reject 401 "User not found" := by
  have h := auth_middleware_token_only "s"
      (generateJWTToken "s" 10 7 "ghost@example.com" 100).1 105
      { user_id := 7, email := "ghost@example.com", iat := 100, exp := 110,
        sub := toString 7 } rfl
  exact ⟨h.1, h.2.1 (NewInMemoryUserRepository 0) rfl⟩
